import Mathlib

/-!
Verification of the OpenPortal agent framework (chryswoods/openportal).

Rust strings are modelled as lists of characters (`Str`), so that the
character-level splitting and trimming done by the grammar and config code
can be reasoned about directly.  Machine integers that never overflow in
the modelled paths (`u64` job versions, `u16` ports) are modelled as `Nat`;
timestamps and civil dates as `Int`.  Effectful primitives supplied by
external crates (UUID generation, `Utc::now`, serde serialisation, the
orion AEAD, URL parsing) enter the model as explicit parameters of the
functions that call them, so every definition stays executable.
-/

namespace OpenPortal

deriving instance DecidableEq for Except

/-- Rust `&str` / `String`, modelled as a list of characters. -/
abbrev Str := List Char

/-- Whitespace test used by Rust `str::trim` (ASCII fragment; the claims
only exercise ASCII data). -/
def isWs (c : Char) : Bool :=
  c = ' ' || c = '\t' || c = '\n' || c = '\r'

/-- Rust `str::trim_start`. -/
def trimStart (s : Str) : Str := s.dropWhile isWs

/-- Rust `str::trim_end`. -/
def trimEnd (s : Str) : Str := (s.reverse.dropWhile isWs).reverse

/-- Rust `str::trim`: drop whitespace from both ends. -/
def trim (s : Str) : Str := trimEnd (trimStart s)

/-- Rust `str::split(sep)` for a single separator character: always returns
at least one (possibly empty) piece; `n` separators yield `n+1` pieces. -/
def splitChar (sep : Char) : Str → List Str
  | [] => [[]]
  | c :: cs =>
    match splitChar sep cs with
    | [] => [[]]
    | w :: ws => if c = sep then [] :: w :: ws else (c :: w) :: ws

/-- `Vec::join(sep)` / intercalation with a single-character separator. -/
def joinChar (sep : Char) : List Str → Str
  | [] => []
  | [w] => w
  | w :: ws => w ++ sep :: joinChar sep ws

/-! ### Grammar (src/templemeads/src/grammar.rs) -/

/-- Grammar-level error (`crate::error::Error::Parse`); the interpolated
parts of the source's messages are elided, keeping the static text. -/
inductive GrammarError where
  | Parse (msg : Str)
  deriving DecidableEq, Repr

/-- `UserIdentifier`: the `username.project.portal` triple. -/
structure UserIdentifier where
  username : Str
  project : Str
  portal : Str
  deriving DecidableEq, Repr

/-- `UserIdentifier::parse`: split on `'.'`, require exactly three parts,
trim each, and reject empty components. -/
def UserIdentifier.parse (identifier : Str) : Except GrammarError UserIdentifier :=
  match splitChar '.' identifier with
  | [a, b, c] =>
    let username := trim a
    let project := trim b
    let portal := trim c
    if username = [] then
      .error (.Parse "Invalid UserIdentifier - username cannot be empty".toList)
    else if project = [] then
      .error (.Parse "Invalid UserIdentifier - project cannot be empty".toList)
    else if portal = [] then
      .error (.Parse "Invalid UserIdentifier - portal cannot be empty".toList)
    else
      .ok ⟨username, project, portal⟩
  | _ => .error (.Parse "Invalid UserIdentifier".toList)

/-- `UserIdentifier::is_valid`. -/
def UserIdentifier.is_valid (u : UserIdentifier) : Bool :=
  !u.username.isEmpty && !u.project.isEmpty && !u.portal.isEmpty

/-- `Display for UserIdentifier`: `{username}.{project}.{portal}`. -/
def UserIdentifier.display (u : UserIdentifier) : Str :=
  u.username ++ '.' :: u.project ++ '.' :: u.portal

/-- `UserMapping`: a `UserIdentifier` with its local user and project. -/
structure UserMapping where
  user : UserIdentifier
  local_user : Str
  local_project : Str
  deriving DecidableEq, Repr

/-- `UserMapping::parse`: split on `':'`, require exactly three parts,
parse the identifier, trim the locals, and reject empty locals. -/
def UserMapping.parse (identifier : Str) : Except GrammarError UserMapping :=
  match splitChar ':' identifier with
  | [a, b, c] =>
    match UserIdentifier.parse a with
    | .error e => .error e
    | .ok user =>
      let local_user := trim b
      let local_project := trim c
      if local_user = [] then
        .error (.Parse "Invalid UserMapping - local_user cannot be empty".toList)
      else if local_project = [] then
        .error (.Parse "Invalid UserMapping - local_project cannot be empty".toList)
      else
        .ok ⟨user, local_user, local_project⟩
  | _ => .error (.Parse "Invalid UserMapping".toList)

/-- `UserMapping::new`: trim the locals and reject empty ones. -/
def UserMapping.mk_new (user : UserIdentifier) (lu lp : Str) :
    Except GrammarError UserMapping :=
  let local_user := trim lu
  let local_project := trim lp
  if local_user = [] then
    .error (.Parse "Invalid UserMapping - local_user cannot be empty".toList)
  else if local_project = [] then
    .error (.Parse "Invalid UserMapping - local_project cannot be empty".toList)
  else
    .ok ⟨user, local_user, local_project⟩

/-- `UserMapping::is_valid`. -/
def UserMapping.is_valid (m : UserMapping) : Bool :=
  m.user.is_valid && !m.local_user.isEmpty && !m.local_project.isEmpty

/-- `Display for UserMapping`: `{user}:{local_user}:{local_project}`. -/
def UserMapping.display (m : UserMapping) : Str :=
  m.user.display ++ ':' :: m.local_user ++ ':' :: m.local_project

/-- `Instruction`: the verbs an agent can be asked to perform. -/
inductive Instruction where
  | AddUser (user : UserIdentifier)
  | RemoveUser (user : UserIdentifier)
  | AddLocalUser (mapping : UserMapping)
  | RemoveLocalUser (mapping : UserMapping)
  | UpdateHomeDir (user : UserIdentifier) (homedir : Str)
  | Invalid
  deriving DecidableEq, Repr

/-- `Instruction::new`, with Rust's panicking index operations made
explicit: `parts[i]` is `List.get?`, and `none` marks a would-be panic.
The source indexes `parts[0]` unconditionally and `parts[1]`, `parts[2]`
after a `parts.len() < 3` guard. -/
def Instruction.newP (s : Str) : Option Instruction :=
  let parts := splitChar ' ' s
  match parts.get? 0 with
  | none => none
  | some verb =>
    if verb = "add_user".toList then
      match UserIdentifier.parse (joinChar ' ' (parts.drop 1)) with
      | .ok user => some (.AddUser user)
      | .error _ => some .Invalid
    else if verb = "remove_user".toList then
      match UserIdentifier.parse (joinChar ' ' (parts.drop 1)) with
      | .ok user => some (.RemoveUser user)
      | .error _ => some .Invalid
    else if verb = "add_local_user".toList then
      match UserMapping.parse (joinChar ' ' (parts.drop 1)) with
      | .ok mapping => some (.AddLocalUser mapping)
      | .error _ => some .Invalid
    else if verb = "remove_local_user".toList then
      match UserMapping.parse (joinChar ' ' (parts.drop 1)) with
      | .ok mapping => some (.RemoveLocalUser mapping)
      | .error _ => some .Invalid
    else if verb = "update_homedir".toList then
      if parts.length < 3 then some .Invalid
      else
        match parts.get? 2 with
        | none => none
        | some p2 =>
          let homedir := trim p2
          if homedir = [] then some .Invalid
          else
            match parts.get? 1 with
            | none => none
            | some p1 =>
              match UserIdentifier.parse p1 with
              | .ok user => some (.UpdateHomeDir user homedir)
              | .error _ => some .Invalid
    else
      some .Invalid

/-- `Instruction::new` as a total function; the `none` (panic) case of
`Instruction.newP` is unreachable (see the totality theorem below). -/
def Instruction.new (s : Str) : Instruction :=
  (Instruction.newP s).getD .Invalid

/-- `Instruction::is_valid`. -/
def Instruction.is_valid : Instruction → Bool
  | .AddUser user => user.is_valid
  | .RemoveUser user => user.is_valid
  | .AddLocalUser mapping => mapping.is_valid
  | .RemoveLocalUser mapping => mapping.is_valid
  | .UpdateHomeDir user homedir => user.is_valid && !homedir.isEmpty
  | .Invalid => false

/-- `Display for Instruction`. -/
def Instruction.display : Instruction → Str
  | .AddUser user => "add_user ".toList ++ user.display
  | .RemoveUser user => "remove_user ".toList ++ user.display
  | .AddLocalUser mapping => "add_local_user ".toList ++ mapping.display
  | .RemoveLocalUser mapping => "remove_local_user ".toList ++ mapping.display
  | .UpdateHomeDir user homedir =>
      "update_homedir ".toList ++ user.display ++ ' ' :: homedir
  | .Invalid => "invalid".toList

/-- A grammar component that survives the parser unchanged: non-empty,
stable under `trim`, and free of the given separator characters. -/
def fieldOk (banned : List Char) (s : Str) : Prop :=
  s ≠ [] ∧ trim s = s ∧ ∀ c ∈ banned, c ∉ s

instance (banned : List Char) (s : Str) : Decidable (fieldOk banned s) := by
  unfold fieldOk
  infer_instance

/-- Canonical user identifier: every component is a printable token free
of `'.'` and of the extra separators of the surrounding context. -/
def UserIdentifier.canonical (extra : List Char) (u : UserIdentifier) : Prop :=
  fieldOk ('.' :: extra) u.username ∧ fieldOk ('.' :: extra) u.project ∧
    fieldOk ('.' :: extra) u.portal

instance (extra : List Char) (u : UserIdentifier) :
    Decidable (u.canonical extra) := by
  unfold UserIdentifier.canonical
  infer_instance

/-- Canonical user mapping: the identifier may not contain `':'` either,
and the local names are `':'`-free printable tokens. -/
def UserMapping.canonical (m : UserMapping) : Prop :=
  m.user.canonical [':'] ∧ fieldOk [':'] m.local_user ∧
    fieldOk [':'] m.local_project

instance (m : UserMapping) : Decidable m.canonical := by
  unfold UserMapping.canonical
  infer_instance

/-- Canonical instructions: the payload components are free of the
separator characters the textual grammar splits on (`'.'` inside user
identifiers, `':'` inside mappings, and `' '` where the verb arguments
are whitespace-delimited).  `Invalid` is excluded, as in the claim. -/
def Instruction.canonical : Instruction → Prop
  | .AddUser user => user.canonical []
  | .RemoveUser user => user.canonical []
  | .AddLocalUser mapping => mapping.canonical
  | .RemoveLocalUser mapping => mapping.canonical
  | .UpdateHomeDir user homedir => user.canonical [' '] ∧ fieldOk [' '] homedir
  | .Invalid => False

instance : (i : Instruction) → Decidable i.canonical := fun i => by
  cases i <;> (unfold Instruction.canonical; infer_instance)

/-! ### Jobs (src/templemeads/src/job.rs) -/

/-- Rust `str::split_whitespace`: split on whitespace runs, no empty
tokens (used by `Command::new` for the leading destination). -/
def splitWhitespaceL (s : Str) : List Str :=
  ((s.splitOnP isWs).filter (fun w => !w.isEmpty))

/-- Modelled from the spec: `Destination` (src/templemeads/src/destination.rs
is not part of the provided sources).  The spec describes it as an
"ordered, non-empty sequence of agent names" written as a dotted chain,
so `Destination::new` splits on `'.'` and `is_valid` demands a non-empty
chain of non-empty names. -/
structure Destination where
  agents : List Str
  deriving DecidableEq, Repr

/-- Modelled from the spec: parse a dotted agent chain. -/
def Destination.mk_new (s : Str) : Destination :=
  ⟨splitChar '.' s⟩

/-- Modelled from the spec: a valid destination is a non-empty chain of
non-empty agent names. -/
def Destination.is_valid (d : Destination) : Bool :=
  !d.agents.isEmpty && d.agents.all (fun a => !a.isEmpty)

/-- `Status`: the job states defined by src/templemeads/src/job.rs.  The
source enum has exactly these three constructors — there is no `Running`
variant. -/
inductive Status where
  | Pending
  | Complete
  | Error
  deriving DecidableEq, Repr

/-- The internal `Command` pair of a destination and an instruction. -/
structure Command where
  destination : Destination
  instruction : Instruction
  deriving DecidableEq, Repr

/-- `Command::new`: first whitespace token is the destination, the rest
(re-joined with single spaces) is the instruction. -/
def Command.mk_new (command : Str) : Command :=
  let parts := splitWhitespaceL command
  { destination := Destination.mk_new (parts.headD [])
    instruction := Instruction.new (joinChar ' ' (parts.drop 1)) }

/-- `Command::is_valid`. -/
def Command.is_valid (c : Command) : Bool :=
  c.destination.is_valid && c.instruction.is_valid

/-- `job::Error`; message interpolation elided where the source formats
values into the text. -/
inductive JobError where
  | AnyError (msg : Str)
  | SerdeJson (msg : Str)
  | RunError (msg : Str)
  | InvalidState (msg : Str)
  | Parse (msg : Str)
  | Unknown (msg : Str)
  deriving DecidableEq, Repr

/-- `Job`: `id` stands for the `Uuid`, `created`/`updated` are UTC-second
timestamps, `version` the `u64` version counter (never near overflow in
any modelled path). -/
structure Job where
  id : Nat
  created : Int
  updated : Int
  version : Nat
  command : Command
  state : Status
  result : Option Str
  deriving DecidableEq, Repr

/-- `Job::new`: `Uuid::new_v4()` and `Utc::now()` are external effects
and enter as the `id` and `now` parameters. -/
def Job.mk_new (id : Nat) (now : Int) (command : Str) : Job :=
  { id := id
    created := now
    updated := now
    version := 1
    command := Command.mk_new command
    state := .Pending
    result := none }

/-- `Job::parse`: construct and reject invalid commands. -/
def Job.parse (id : Nat) (now : Int) (command : Str) : Except JobError Job :=
  let job := Job.mk_new id now command
  if !job.command.is_valid then
    .error (.Parse "Invalid command".toList)
  else
    .ok job

/-- `Job::completed`.  `&mut self` becomes a returned post-state paired
with the `Result`.  `ser` is the outcome of `serde_json::to_string(&result)`
(an external serde effect); note the source assigns
`self.state = Status::Complete` *before* the fallible serialisation, so the
`?` early-return leaves a half-mutated job behind. -/
def Job.completed (now : Int) (ser : Except Str Str) (j : Job) :
    Job × Except JobError Unit :=
  if j.state ≠ .Pending then
    (j, .error (.InvalidState "Cannot set result on non-pending job".toList))
  else
    let j1 : Job := { j with state := .Complete }
    match ser with
    | .error e => (j1, .error (.SerdeJson e))
    | .ok s =>
      ({ j1 with result := some s, updated := now, version := j.version + 1 },
       .ok ())

/-- `Job::errored`: `message.to_owned()` is infallible, so the only error
path is the non-pending guard. -/
def Job.errored (now : Int) (message : Str) (j : Job) :
    Job × Except JobError Unit :=
  if j.state ≠ .Pending then
    (j, .error (.InvalidState "Cannot set error on non-pending job".toList))
  else
    ({ j with state := .Error, result := some message, updated := now,
              version := j.version + 1 },
     .ok ())

/-- The spec invariant: `result` is `Some` iff the state is terminal. -/
def Job.invariantOk (j : Job) : Prop :=
  j.result.isSome = true ↔ (j.state = Status.Complete ∨ j.state = Status.Error)

instance (j : Job) : Decidable j.invariantOk := by
  unfold Job.invariantOk
  infer_instance

/-- Jobs reachable through the public constructors and mutators exactly as
the source behaves, *including* the post-states left behind by the error
paths of `completed` and `errored`. -/
inductive JobReachable : Job → Prop where
  | mk_new (id : Nat) (now : Int) (command : Str) :
      JobReachable (Job.mk_new id now command)
  | parse (id : Nat) (now : Int) (command : Str) (j : Job)
      (h : Job.parse id now command = .ok j) : JobReachable j
  | completed (now : Int) (ser : Except Str Str) (j : Job)
      (h : JobReachable j) : JobReachable (Job.completed now ser j).1
  | errored (now : Int) (message : Str) (j : Job)
      (h : JobReachable j) : JobReachable (Job.errored now message j).1

/-- Reachability restricted to runs in which every serialisation handed to
`completed` succeeded (the amended form of the invariant claim). -/
inductive JobReachableSer : Job → Prop where
  | mk_new (id : Nat) (now : Int) (command : Str) :
      JobReachableSer (Job.mk_new id now command)
  | parse (id : Nat) (now : Int) (command : Str) (j : Job)
      (h : Job.parse id now command = .ok j) : JobReachableSer j
  | completed (now : Int) (s : Str) (j : Job)
      (h : JobReachableSer j) : JobReachableSer (Job.completed now (.ok s) j).1
  | errored (now : Int) (message : Str) (j : Job)
      (h : JobReachableSer j) : JobReachableSer (Job.errored now message j).1

/-! ### Crypto (src/paddington/src/crypto.rs)

The orion AEAD (`aead::seal` / `aead::open`) is an external crate; it is
modelled symbolically as ideal authenticated encryption: a ciphertext
records the key it was sealed under, the plaintext, and an ideal
authentication tag, and `open` succeeds exactly on an untampered
ciphertext sealed under the same key.  serde serialisation of the generic
payload enters as an encode/decode function pair. -/

/-- Symmetric keys, abstracted to their identity. -/
abbrev CryptoKey := Nat

/-- A symbolic AEAD ciphertext: the sealing key, the plaintext and an
ideal tag binding the two. -/
structure SealedBox where
  key : CryptoKey
  msg : Str
  tag : CryptoKey × Str
  deriving DecidableEq, Repr

/-- Ideal MAC: the tag is the (key, message) pair itself, which makes it
trivially collision-free. -/
def macOf (k : CryptoKey) (m : Str) : CryptoKey × Str := (k, m)

/-- `orion::aead::seal`, symbolically. -/
def aeadSeal (k : CryptoKey) (m : Str) : SealedBox :=
  ⟨k, m, macOf k m⟩

/-- `orion::aead::open`, symbolically: fails on a key mismatch or a tag
that does not authenticate the stored plaintext. -/
def aeadOpen (k : CryptoKey) (box : SealedBox) : Except Str Str :=
  if box.key = k ∧ box.tag = macOf box.key box.msg then .ok box.msg
  else .error "aead open failed".toList

/-- `EncryptedData`: ciphertext plus a scheme version byte. -/
structure EncryptedData where
  data : SealedBox
  version : Nat
  deriving DecidableEq, Repr

/-- Errors raised by `Key::decrypt` (anyhow-carried; kinds only). -/
inductive CryptoFailure where
  | UnsupportedVersion (version : Nat)
  | AeadFailure (msg : Str)
  | DeserializeFailure
  deriving DecidableEq, Repr

/-- `Key::encrypt`: serialise the payload with serde (`enc`), seal it,
and stamp version byte `1`. -/
def Key.encrypt {α : Type} (k : CryptoKey) (enc : α → Str) (x : α) :
    EncryptedData :=
  { data := aeadSeal k (enc x), version := 1 }

/-- `Key::decrypt`: refuse any version byte other than `1`, open the
ciphertext, and deserialise with serde (`dec`). -/
def Key.decrypt {α : Type} (k : CryptoKey) (dec : Str → Option α)
    (d : EncryptedData) : Except CryptoFailure α :=
  if d.version ≠ 1 then .error (.UnsupportedVersion d.version)
  else
    match aeadOpen k d.data with
    | .error e => .error (.AeadFailure e)
    | .ok s =>
      match dec s with
      | some x => .ok x
      | none => .error .DeserializeFailure

/-! ### Control messages (src/templemeads/src/control_message.rs)

`Peer` and `AgentType` live in src/templemeads/src/agent.rs, which is not
part of the provided sources; both are modelled from the spec (`Peer` is
an `(agent_name, zone)` pair, `AgentType` the six agent kinds).  The
three effects the handler triggers (`Command::register(...).send_to`,
`job::sync_board`, `job::send_queued`) are repo functions outside the
provided sources as well; they are modelled as emitted actions whose
outcomes are parameters. -/

/-- Modelled from the spec: the six agent types. -/
inductive AgentType where
  | Portal
  | Provider
  | Account
  | Instance
  | Filesystem
  | Bridge
  deriving DecidableEq, Repr

/-- Modelled from the spec: a peer is an `(agent_name, zone)` pair. -/
structure Peer where
  name : Str
  zone : Str
  deriving DecidableEq, Repr

/-- `paddington::command::Command`, the control-plane messages. -/
inductive ControlCommand where
  | Connected (agent : Str) (zone : Str)
  | Disconnected (agent : Str) (zone : Str)
  | ErrorMsg (error : Str)
  deriving DecidableEq, Repr

/-- The observable actions `process_control_message` can perform. -/
inductive ControlAction where
  | registerTo (agent_type : AgentType) (peer : Peer)
  | syncBoard (peer : Peer)
  | sendQueued (peer : Peer)
  deriving DecidableEq, Repr

/-- Generic effect error for the three awaited calls. -/
abbrev EffectResult := Except Str Unit

/-- `process_control_message`: on `Connected` perform register, then
board re-sync, then queued-job replay, each `?`-propagated, so a failure
cuts the sequence short; `Disconnected` and `Error` only log.  Returns
the actions attempted in order alongside the propagated result. -/
def process_control_message (agent_type : AgentType) (command : ControlCommand)
    (registerResult syncResult sendQueuedResult : EffectResult) :
    List ControlAction × Except Str Unit :=
  match command with
  | .Connected agent zone =>
    let peer : Peer := ⟨agent, zone⟩
    match registerResult with
    | .error e => ([.registerTo agent_type peer], .error e)
    | .ok () =>
      match syncResult with
      | .error e => ([.registerTo agent_type peer, .syncBoard peer], .error e)
      | .ok () =>
        ([.registerTo agent_type peer, .syncBoard peer, .sendQueued peer],
         sendQueuedResult)
  | .Disconnected _ _ => ([], .ok ())
  | .ErrorMsg _ => ([], .ok ())

/-! ### Client supervisor (src/paddington/src/client.rs) -/

/-- Control flow at the end of one pass of the `loop` body in
`client::run`. -/
inductive LoopControl where
  | continueLoop
  | returnLoop
  deriving DecidableEq, Repr

/-- One pass of the supervisor loop body in `client::run`: match on the
`run_once` outcome (both arms only log), then sleep.  Returns the seconds
slept and the control flow; the body contains no `break` or `return`, so
both arms fall through to the 5-second sleep and continue. -/
def clientLoopBody (outcome : Except Str Unit) : Nat × LoopControl :=
  match outcome with
  | .ok () => (5, .continueLoop)
  | .error _ => (5, .continueLoop)

/-- `client::run` against an arbitrary schedule of `run_once` outcomes:
the behaviour of iteration `n`. -/
def clientRun (outcomes : Nat → Except Str Unit) (n : Nat) : Nat × LoopControl :=
  clientLoopBody (outcomes n)

/-- `client::run` returns only if some iteration leaves the loop. -/
def clientRunReturns (outcomes : Nat → Except Str Unit) : Prop :=
  ∃ n, (clientRun outcomes n).2 = .returnLoop

/-! ### Service configuration (src/paddington/src/config.rs)

`Invite` lives in src/paddington/src/invite.rs, which is not part of the
provided sources; it is modelled from the spec
(`{name, url, inner_key, outer_key}` with field accessors).  Key
generation (`Key::generate`, a CSPRNG draw) and URL normalisation
(`create_websocket_url`, which leans on the external `url` crate) enter
as parameters. -/

/-- `IpOrRange`: a single address or a CIDR range; address semantics stay
with the external `iptools` crate, so only the textual identity is kept. -/
inductive IpOrRange where
  | IP (addr : Str)
  | Range (range : Str)
  deriving DecidableEq, Repr

/-- Configuration-level error kinds used by the peer registry. -/
inductive ConfigError where
  | Parse (msg : Str)
  | Peer (msg : Str)
  | Null (msg : Str)
  deriving DecidableEq, Repr

/-- Modelled from the spec: an invitation record `{name, url, inner_key,
outer_key}`. -/
structure Invite where
  name : Str
  url : Str
  inner_key : CryptoKey
  outer_key : CryptoKey
  deriving DecidableEq, Repr

/-- `ClientConfig`: a permitted inbound peer plus its two keys. -/
structure ClientConfig where
  name : Option Str
  ip : Option IpOrRange
  inner_key : CryptoKey
  outer_key : CryptoKey
  deriving DecidableEq, Repr

/-- `ServerConfig`: an authorised outbound peer plus its two keys. -/
structure ServerConfig where
  name : Str
  url : Str
  inner_key : CryptoKey
  outer_key : CryptoKey
  deriving DecidableEq, Repr

/-- `EncryptionScheme` for the config file at rest. -/
inductive EncryptionScheme where
  | Environment (key : Str)
  | Simple
  deriving DecidableEq, Repr

/-- `ServiceConfig`: service identity plus the two peer registries. -/
structure ServiceConfig where
  name : Str
  url : Str
  ip : Str
  port : Nat
  servers : List ServerConfig
  clients : List ClientConfig
  encryption : Option EncryptionScheme
  deriving DecidableEq, Repr

/-- `ServiceConfig::add_client`: `ipParsed` is the outcome of
`IpOrRange::new(ip)` and `kInner`/`kOuter` the two freshly generated keys
inside `ClientConfig::new`.  Rejects an unparsable IP, an empty name or a
duplicate client name; otherwise stores the new client entry and returns
the invitation carrying this service's name and URL and the client's two
keys. -/
def ServiceConfig.add_client (cfg : ServiceConfig) (clientName : Str)
    (ipParsed : Option IpOrRange) (kInner kOuter : CryptoKey) :
    ServiceConfig × Except ConfigError Invite :=
  match ipParsed with
  | none =>
    (cfg, .error (.Parse "Could not parse into an IP address or IP range".toList))
  | some ip =>
    if clientName = [] then
      (cfg, .error (.Peer "No client name provided.".toList))
    else if cfg.clients.any (fun c => c.name = some clientName) then
      (cfg, .error (.Peer "Client with this name already exists.".toList))
    else
      let client : ClientConfig :=
        { name := some clientName, ip := some ip,
          inner_key := kInner, outer_key := kOuter }
      ({ cfg with clients := cfg.clients ++ [client] },
       .ok { name := cfg.name, url := cfg.url,
             inner_key := client.inner_key, outer_key := client.outer_key })

/-- `ServerConfig::from_invite`: normalise the invited URL (`wsUrl`
models `create_websocket_url`, which can fail on an unparsable URL) and
copy the name and both keys from the invitation. -/
def ServerConfig.from_invite (wsUrl : Str → Option Str) (invite : Invite) :
    Except ConfigError ServerConfig :=
  match wsUrl invite.url with
  | none => .error (.Parse "Could not parse URL".toList)
  | some u =>
    .ok { name := invite.name, url := u,
          inner_key := invite.inner_key, outer_key := invite.outer_key }

/-- `ServiceConfig::add_server`: reject a duplicate server name, build
the `ServerConfig` from the invitation, reject an empty URL, then store
the entry. -/
def ServiceConfig.add_server (cfg : ServiceConfig) (invite : Invite)
    (wsUrl : Str → Option Str) : ServiceConfig × Except ConfigError Unit :=
  if cfg.servers.any (fun s => s.name = invite.name) then
    (cfg, .error (.Peer "Server with this name already exists.".toList))
  else
    match ServerConfig.from_invite wsUrl invite with
    | .error e => (cfg, .error e)
    | .ok server =>
      if server.url = [] then
        (cfg, .error (.Null "No URL provided.".toList))
      else
        ({ cfg with servers := cfg.servers ++ [server] }, .ok ())

/-! ### Slurm usage-report cache (src/slurm/src/cache.rs)

`Date`, `ProjectIdentifier` and `DailyProjectUsageReport` come from
templemeads modules that are not part of the provided sources; they are
modelled from the spec: `Date` is a civil date (totally ordered, here a
day number), `ProjectIdentifier` a `(project, portal)` pair, and a daily
report something that knows whether it `is_complete`.  The `HashMap`s are
modelled as association lists with distinct keys. -/

/-- Modelled from the spec: a civil date, as a day number. -/
abbrev Date := Int

/-- Modelled from the spec: `ProjectIdentifier` = `(project, portal)`. -/
structure ProjectIdentifier where
  project : Str
  portal : Str
  deriving DecidableEq, Repr

/-- Modelled from the spec: a daily usage report; only completeness is
observable to the cache. -/
structure DailyProjectUsageReport where
  complete : Bool
  payload : Str
  deriving DecidableEq, Repr

/-- `DailyProjectUsageReport::is_complete`. -/
def DailyProjectUsageReport.is_complete (r : DailyProjectUsageReport) : Bool :=
  r.complete

/-- Association-list lookup (model of `HashMap::get`). -/
def alLookup {κ β : Type} [DecidableEq κ] (k : κ) : List (κ × β) → Option β
  | [] => none
  | (k', v) :: rest => if k' = k then some v else alLookup k rest

/-- Association-list insert-or-replace (model of `HashMap::insert`). -/
def alInsert {κ β : Type} [DecidableEq κ] (k : κ) (v : β) :
    List (κ × β) → List (κ × β)
  | [] => [(k, v)]
  | (k', v') :: rest =>
    if k' = k then (k, v) :: rest else (k', v') :: alInsert k v rest

/-- Association-list removal of the entry at a key (model of
`HashMap::remove`). -/
def alErase {κ β : Type} [DecidableEq κ] (k : κ) :
    List (κ × β) → List (κ × β)
  | [] => []
  | (k', v') :: rest => if k' = k then rest else (k', v') :: alErase k rest

/-- The per-project `UsageDatabase.reports` map. -/
abbrev ReportMap := List (Date × DailyProjectUsageReport)

/-- The oldest-date scan inside `set_report`: start from `today` and take
any strictly older key. -/
def oldestDate (today : Date) (m : ReportMap) : Date :=
  m.foldl (fun acc e => if e.1 < acc then e.1 else acc) today

/-- The `while usage.reports.len() >= 30` eviction loop of `set_report`,
with explicit fuel.  Whenever every cached date is `≤ today` — true of
every reachable cache state — each pass removes an entry, so fuel equal
to the map size makes the fuelled loop agree with the source's unbounded
loop. -/
def evictLoop (today : Date) : Nat → ReportMap → ReportMap
  | 0, m => m
  | fuel + 1, m =>
    if 30 ≤ m.length then evictLoop today fuel (alErase (oldestDate today m) m)
    else m

/-- `cache::Error::Bug`. -/
inductive CacheError where
  | Bug (msg : Str)
  deriving DecidableEq, Repr

/-- The `reports` component of the cache `Database`. -/
abbrev ReportsDb := List (ProjectIdentifier × ReportMap)

/-- `set_report`: refuse future-dated and incomplete reports before
touching the cache; otherwise evict oldest-dated reports while the
project holds 30 or more, then insert.  `today` is `Date::today()`. -/
def set_report (today : Date) (project : ProjectIdentifier) (date : Date)
    (report : DailyProjectUsageReport) (db : ReportsDb) :
    ReportsDb × Except CacheError Unit :=
  if today < date then
    (db, .error (.Bug "Cannot cache a report for future date".toList))
  else if !report.is_complete then
    (db, .error (.Bug "Cannot cache an incomplete report".toList))
  else
    match alLookup project db with
    | some usage =>
      (alInsert project
        (alInsert date report (evictLoop today usage.length usage)) db, .ok ())
    | none =>
      (alInsert project [(date, report)] db, .ok ())

/-! ### Claim C10 — the usage-report cache retention policy -/

theorem oldestDate_le_acc (m : ReportMap) (acc : Date) :
    oldestDate acc m ≤ acc := by
  induction m generalizing acc with
  | nil => exact le_refl acc
  | cons e m ih =>
    unfold oldestDate at ih ⊢
    simp only [List.foldl_cons]
    refine le_trans (ih _) ?_
    split
    · exact le_of_lt (by assumption)
    · exact le_refl acc

theorem oldestDate_le_mem (m : ReportMap) (acc : Date)
    {e : Date × DailyProjectUsageReport} (he : e ∈ m) :
    oldestDate acc m ≤ e.1 := by
  induction m generalizing acc with
  | nil => cases he
  | cons a m ih =>
    unfold oldestDate at ih ⊢
    simp only [List.foldl_cons]
    rcases List.mem_cons.mp he with rfl | hm
    · refine le_trans (oldestDate_le_acc m _) ?_
      split
      · exact le_refl _
      · exact le_of_not_lt (by assumption)
    · exact ih _ hm

theorem oldestDate_mem_or_acc (m : ReportMap) (acc : Date) :
    oldestDate acc m = acc ∨ oldestDate acc m ∈ m.map Prod.fst := by
  induction m generalizing acc with
  | nil => exact Or.inl rfl
  | cons a m ih =>
    unfold oldestDate at ih ⊢
    simp only [List.foldl_cons]
    rcases ih (if a.1 < acc then a.1 else acc) with h | h
    · rw [h]
      split
      · exact Or.inr (by simp)
      · exact Or.inl rfl
    · exact Or.inr (List.mem_cons_of_mem _ h)

/-- When the map is non-empty and no key exceeds `today`, the oldest-date
scan lands on an actual key of the map. -/
theorem oldestDate_mem (today : Date) (m : ReportMap)
    (hle : ∀ e ∈ m, e.1 ≤ today) (hne : m ≠ []) :
    oldestDate today m ∈ m.map Prod.fst := by
  rcases oldestDate_mem_or_acc m today with h | h
  · obtain ⟨e, he⟩ := List.exists_mem_of_ne_nil m hne
    have h1 := oldestDate_le_mem m today he
    rw [h] at h1
    have h2 := hle e he
    have h3 : e.1 = today := le_antisymm h2 h1
    rw [h, ← h3]
    exact List.mem_map_of_mem Prod.fst he
  · exact h

theorem alErase_sub {κ β : Type} [DecidableEq κ] (k : κ)
    (m : List (κ × β)) : ∀ e ∈ alErase k m, e ∈ m := by
  induction m with
  | nil => intro e he; cases he
  | cons a m ih =>
    intro e he
    unfold alErase at he
    split at he
    · exact List.mem_cons_of_mem _ he
    · rcases List.mem_cons.mp he with rfl | hm
      · exact List.mem_cons_self _ _
      · exact List.mem_cons_of_mem _ (ih e hm)

theorem length_alErase_of_mem {κ β : Type} [DecidableEq κ] {k : κ}
    {m : List (κ × β)} (h : k ∈ m.map Prod.fst) :
    (alErase k m).length + 1 = m.length := by
  induction m with
  | nil => cases h
  | cons a m ih =>
    unfold alErase
    split
    · simp
    · rename_i hne
      rcases List.mem_cons.mp h with h1 | h1
      · exact absurd h1.symm hne
      · simp only [List.length_cons]
        rw [← ih h1]

theorem mem_keys_alErase {κ β : Type} [DecidableEq κ] {d k : κ}
    {m : List (κ × β)} (hd : d ∈ m.map Prod.fst) (hne : d ≠ k) :
    d ∈ (alErase k m).map Prod.fst := by
  induction m with
  | nil => cases hd
  | cons a m ih =>
    unfold alErase
    split
    · rename_i hk
      rcases List.mem_cons.mp hd with h1 | h1
      · exact absurd (h1.trans hk) hne
      · exact h1
    · rcases List.mem_cons.mp hd with h1 | h1
      · rw [List.map_cons]
        exact h1 ▸ List.mem_cons_self _ _
      · exact List.mem_cons_of_mem _ (ih h1)

theorem length_alInsert_le {κ β : Type} [DecidableEq κ] (k : κ) (v : β)
    (m : List (κ × β)) : (alInsert k v m).length ≤ m.length + 1 := by
  induction m with
  | nil => simp [alInsert]
  | cons a m ih =>
    unfold alInsert
    split
    · simp
    · simp only [List.length_cons]
      omega

theorem alLookup_alInsert_self {κ β : Type} [DecidableEq κ] (k : κ) (v : β)
    (m : List (κ × β)) : alLookup k (alInsert k v m) = some v := by
  induction m with
  | nil => simp [alInsert, alLookup]
  | cons a m ih =>
    unfold alInsert
    split
    · simp [alLookup]
    · rename_i hne
      unfold alLookup
      rw [if_neg hne]
      exact ih

theorem alLookup_alInsert_ne {κ β : Type} [DecidableEq κ] {k q : κ}
    (hne : q ≠ k) (v : β) (m : List (κ × β)) :
    alLookup q (alInsert k v m) = alLookup q m := by
  have hkq : ¬(k = q) := fun h => hne h.symm
  induction m with
  | nil => simp [alInsert, alLookup, hkq]
  | cons a m ih =>
    unfold alInsert
    split
    · rename_i hk
      have ha : ¬(a.1 = q) := fun h => hkq (hk.symm.trans h)
      unfold alLookup
      rw [if_neg hkq, if_neg ha]
    · unfold alLookup
      split
      · rfl
      · exact ih

theorem alLookup_mem {κ β : Type} [DecidableEq κ] {k : κ} {v : β}
    {m : List (κ × β)} (h : alLookup k m = some v) : (k, v) ∈ m := by
  induction m with
  | nil => cases h
  | cons a m ih =>
    unfold alLookup at h
    split at h
    · rename_i hk
      cases h
      rw [← hk]
      exact List.mem_cons_self _ _
    · exact List.mem_cons_of_mem _ (ih h)

theorem evictLoop_subset (today : Date) (fuel : Nat) (m : ReportMap) :
    ∀ e ∈ evictLoop today fuel m, e ∈ m := by
  induction fuel generalizing m with
  | zero => intro e he; exact he
  | succ fuel ih =>
    intro e he
    unfold evictLoop at he
    split at he
    · exact alErase_sub _ m e (ih _ e he)
    · exact he

/-- With every cached date `≤ today` and fuel at least the map size, the
eviction loop drives the map strictly below the 30-entry cap. -/
theorem evictLoop_length (today : Date) (fuel : Nat) (m : ReportMap)
    (hle : ∀ e ∈ m, e.1 ≤ today) (hfuel : m.length ≤ fuel) :
    (evictLoop today fuel m).length ≤ 29 := by
  induction fuel generalizing m with
  | zero =>
    unfold evictLoop
    omega
  | succ fuel ih =>
    unfold evictLoop
    split
    · rename_i h30
      have hne : m ≠ [] := by
        intro h
        rw [h] at h30
        simp at h30
      have hmem := oldestDate_mem today m hle hne
      have hlen := length_alErase_of_mem hmem
      exact ih _ (fun e he => hle e (alErase_sub _ m e he)) (by omega)
    · omega

/-- Every date evicted by the loop is at most every date that survives:
the oldest reports go first. -/
theorem evictLoop_removed_le (today : Date) (fuel : Nat) (m : ReportMap)
    (hle : ∀ e ∈ m, e.1 ≤ today) :
    ∀ d ∈ m.map Prod.fst, d ∉ (evictLoop today fuel m).map Prod.fst →
      ∀ d' ∈ (evictLoop today fuel m).map Prod.fst, d ≤ d' := by
  induction fuel generalizing m with
  | zero =>
    intro d hd hnd d' hd'
    exact absurd hd hnd
  | succ fuel ih =>
    unfold evictLoop
    split
    · rename_i h30
      intro d hd hnd d' hd'
      by_cases hmem : d ∈ (alErase (oldestDate today m) m).map Prod.fst
      · exact ih _ (fun e he => hle e (alErase_sub _ m e he)) d hmem hnd d' hd'
      · have hdo : d = oldestDate today m := by
          by_contra hne
          exact hmem (mem_keys_alErase hd hne)
        subst hdo
        obtain ⟨e, he, rfl⟩ := List.mem_map.mp hd'
        have hm : e ∈ m :=
          alErase_sub _ m e (evictLoop_subset today fuel _ e he)
        exact oldestDate_le_mem m today hm
    · intro d hd hnd d' hd'
      exact absurd hd hnd

/-- C10: `set_report` enforces the bounded retention policy.  Over any
cache whose cached dates do not exceed today (true of all reachable
caches): a report dated after today is refused with a `Bug` error and no
mutation; an incomplete report is refused likewise; a successful call
leaves at most 30 reports cached for the project, leaves every other
project's reports untouched, and its eviction pass removes only dates
that are at most every surviving date (oldest first). -/
theorem set_report_retention (today : Date) (project : ProjectIdentifier)
    (date : Date) (report : DailyProjectUsageReport) (db : ReportsDb)
    (hle : ∀ p ∈ db, ∀ e ∈ p.2, e.1 ≤ today) :
    (today < date →
      set_report today project date report db =
        (db, .error (.Bug "Cannot cache a report for future date".toList))) ∧
    (¬today < date → report.is_complete = false →
      set_report today project date report db =
        (db, .error (.Bug "Cannot cache an incomplete report".toList))) ∧
    (¬today < date → report.is_complete = true →
      (set_report today project date report db).2 = .ok () ∧
      (∀ m, alLookup project (set_report today project date report db).1 =
          some m → m.length ≤ 30) ∧
      (∀ q, q ≠ project →
        alLookup q (set_report today project date report db).1 =
          alLookup q db) ∧
      (∀ usage, alLookup project db = some usage →
        ∀ d ∈ usage.map Prod.fst,
          d ∉ (evictLoop today usage.length usage).map Prod.fst →
          ∀ d' ∈ (evictLoop today usage.length usage).map Prod.fst, d ≤ d')) := by
  refine ⟨?_, ?_, ?_⟩
  · intro h
    simp [set_report, h]
  · intro h1 h2
    simp [set_report, h1, h2]
  · intro h1 h2
    cases hl : alLookup project db with
    | some usage =>
      have husage : (project, usage) ∈ db := alLookup_mem hl
      have hleu : ∀ e ∈ usage, e.1 ≤ today := hle _ husage
      have hred : set_report today project date report db =
          (alInsert project
            (alInsert date report (evictLoop today usage.length usage)) db,
           .ok ()) := by
        simp [set_report, h1, h2, hl]
      rw [hred]
      refine ⟨rfl, ?_, ?_, ?_⟩
      · intro m hm
        rw [alLookup_alInsert_self] at hm
        cases hm
        calc (alInsert date report (evictLoop today usage.length usage)).length
            ≤ (evictLoop today usage.length usage).length + 1 :=
              length_alInsert_le _ _ _
          _ ≤ 30 := by
              have := evictLoop_length today usage.length usage hleu (le_refl _)
              omega
      · intro q hq
        exact alLookup_alInsert_ne hq _ _
      · intro usage' hl'
        have heq : usage = usage' := Option.some.inj hl'
        subst heq
        exact evictLoop_removed_le today usage.length usage hleu
    | none =>
      have hred : set_report today project date report db =
          (alInsert project [(date, report)] db, .ok ()) := by
        simp [set_report, h1, h2, hl]
      rw [hred]
      refine ⟨rfl, ?_, ?_, ?_⟩
      · intro m hm
        rw [alLookup_alInsert_self] at hm
        cases hm
        simp
      · intro q hq
        exact alLookup_alInsert_ne hq _ _
      · intro usage' hl'
        exact absurd hl' (by simp)

theorem set_report_retention_witness :
    let proj : ProjectIdentifier := ⟨"proj".toList, "portal".toList⟩
    let rep : DailyProjectUsageReport := ⟨true, "ok".toList⟩
    (set_report 10 proj 9 rep []).2 = .ok () ∧
    (∀ m, alLookup proj (set_report 10 proj 9 rep []).1 = some m →
      m.length ≤ 30) ∧
    set_report 10 proj 11 rep [] =
      ([], .error (.Bug "Cannot cache a report for future date".toList)) ∧
    set_report 10 proj 9 ⟨false, "no".toList⟩ [] =
      ([], .error (.Bug "Cannot cache an incomplete report".toList)) := by
  intro proj rep
  have hA := set_report_retention 10 proj 9 rep [] (by simp)
  have hB := set_report_retention 10 proj 11 rep [] (by simp)
  have hC := set_report_retention 10 proj 9 ⟨false, "no".toList⟩ [] (by simp)
  exact ⟨(hA.2.2 (by decide) rfl).1, (hA.2.2 (by decide) rfl).2.1,
         hB.1 (by decide), hC.2.1 (by decide) rfl⟩

/-! ### Helper lemmas about string splitting -/

theorem splitChar_ne_nil (sep : Char) (s : Str) : splitChar sep s ≠ [] := by
  cases s with
  | nil => simp [splitChar]
  | cons c cs =>
    simp only [splitChar]
    cases h : splitChar sep cs with
    | nil => simp
    | cons w ws =>
      by_cases hc : c = sep <;> simp [hc]

/-- Splitting a separator-free string returns the string as a single piece. -/
theorem splitChar_of_not_mem (sep : Char) (s : Str) (h : sep ∉ s) :
    splitChar sep s = [s] := by
  induction s with
  | nil => rfl
  | cons c cs ih =>
    have hc : c ≠ sep := fun hcs => h (hcs ▸ List.mem_cons_self c cs)
    have hcs : sep ∉ cs := fun hm => h (List.mem_cons_of_mem _ hm)
    simp only [splitChar, ih hcs]
    simp [hc]

/-- Splitting distributes over a separator that follows a separator-free
prefix. -/
theorem splitChar_append_sep (sep : Char) (p s : Str) (hp : sep ∉ p) :
    splitChar sep (p ++ sep :: s) = p :: splitChar sep s := by
  induction p with
  | nil =>
    simp only [List.nil_append, splitChar]
    cases h : splitChar sep s with
    | nil => exact absurd h (splitChar_ne_nil sep s)
    | cons w ws => simp
  | cons c cs ih =>
    have hc : c ≠ sep := fun hcs => hp (hcs ▸ List.mem_cons_self c cs)
    have hcs : sep ∉ cs := fun hm => hp (List.mem_cons_of_mem _ hm)
    rw [List.cons_append]
    simp only [splitChar]
    rw [ih hcs]
    simp [hc]

/-- Rejoining the pieces of a split restores the original string. -/
theorem joinChar_splitChar (sep : Char) (s : Str) :
    joinChar sep (splitChar sep s) = s := by
  induction s with
  | nil => rfl
  | cons c cs ih =>
    simp only [splitChar]
    cases h : splitChar sep cs with
    | nil => exact absurd h (splitChar_ne_nil sep cs)
    | cons w ws =>
      rw [h] at ih
      by_cases hc : c = sep
      · subst hc
        simpa [joinChar] using ih
      · simp only [if_neg hc]
        cases ws with
        | nil => simpa [joinChar] using ih
        | cons w2 ws2 => simpa [joinChar] using ih

/-! ### Claim C1 — terminal job states are absorbing -/

/-- C1: for every `Job` whose state is `Complete` or `Error`, both
`Job::completed` and `Job::errored` return an `InvalidState` error and
leave the job (all of `id`, `state`, `result`, `version`, `created`,
`updated`) unchanged; and each mutator succeeds only when the state is
`Pending`. -/
theorem job_terminal_states_absorbing (j : Job) (now : Int)
    (ser : Except Str Str) (message : Str)
    (hterm : j.state = .Complete ∨ j.state = .Error) :
    Job.completed now ser j =
      (j, .error (.InvalidState "Cannot set result on non-pending job".toList)) ∧
    Job.errored now message j =
      (j, .error (.InvalidState "Cannot set error on non-pending job".toList)) ∧
    ((Job.completed now ser j).2 = .ok () → j.state = .Pending) ∧
    ((Job.errored now message j).2 = .ok () → j.state = .Pending) := by
  have hne : j.state ≠ .Pending := by
    rcases hterm with h | h <;> rw [h] <;> intro hc <;> exact Status.noConfusion hc
  refine ⟨?_, ?_, ?_, ?_⟩
  · simp [Job.completed, hne]
  · simp [Job.errored, hne]
  · intro hok
    simp [Job.completed, hne] at hok
  · intro hok
    simp [Job.errored, hne] at hok

/-- A concrete job in the `Complete` state feeding the C1 witness. -/
def jobCompleteSample : Job :=
  { id := 0, created := 0, updated := 0, version := 2,
    command := { destination := ⟨["portal".toList]⟩, instruction := .Invalid },
    state := .Complete, result := some "\"done\"".toList }

theorem job_terminal_states_absorbing_witness :
    Job.completed 9 (.ok "\"x\"".toList) jobCompleteSample =
      (jobCompleteSample,
       .error (.InvalidState "Cannot set result on non-pending job".toList)) ∧
    Job.errored 9 "boom".toList jobCompleteSample =
      (jobCompleteSample,
       .error (.InvalidState "Cannot set error on non-pending job".toList)) :=
  ⟨(job_terminal_states_absorbing jobCompleteSample 9 (.ok "\"x\"".toList)
      "boom".toList (Or.inl rfl)).1,
   (job_terminal_states_absorbing jobCompleteSample 9 (.ok "\"x\"".toList)
      "boom".toList (Or.inl rfl)).2.1⟩

/-! ### Claim C2 — the result/state invariant -/

/-- C2 counterexample: the claim as stated is false.  `Job::completed`
assigns `state = Complete` *before* the fallible
`serde_json::to_string(&result)?`; when serialisation fails, the error
path leaves a reachable job that is `Complete` with `result = None`,
breaking `result.is_some ↔ state ∈ {Complete, Error}`. -/
theorem job_invariant_counterexample :
    JobReachable
      (Job.completed 0 (.error "serde failure".toList) (Job.mk_new 0 0 [])).1 ∧
    ¬Job.invariantOk
      (Job.completed 0 (.error "serde failure".toList) (Job.mk_new 0 0 [])).1 := by
  constructor
  · exact JobReachable.completed 0 _ _ (JobReachable.mk_new 0 0 [])
  · decide

/-- C2 (amended): every job reachable through `Job::new`, `Job::parse`,
`Job::completed` and `Job::errored` — error paths included — satisfies
`result.is_some ↔ state ∈ {Complete, Error}`, provided every
serialisation handed to `completed` succeeds (the sole exception is
`completed`'s serialisation-failure path, which leaves a `Complete` job
with no result). -/
theorem job_result_invariant (j : Job) (h : JobReachableSer j) :
    Job.invariantOk j := by
  induction h with
  | mk_new id now command => simp [Job.mk_new, Job.invariantOk]
  | parse id now command j hp =>
    unfold Job.parse at hp
    simp only at hp
    split at hp
    · cases hp
    · cases hp
      simp [Job.mk_new, Job.invariantOk]
  | completed now s j _ ih =>
    unfold Job.completed
    split
    · simpa using ih
    · simp [Job.invariantOk]
  | errored now message j _ ih =>
    unfold Job.errored
    split
    · simpa using ih
    · simp [Job.invariantOk]

theorem job_result_invariant_witness :
    Job.invariantOk (Job.errored 3 "oops".toList (Job.mk_new 0 0 [])).1 :=
  job_result_invariant _
    (JobReachableSer.errored 3 "oops".toList _ (JobReachableSer.mk_new 0 0 []))

/-! ### Claim C3 — the `Status` enumeration -/

/-- C3: the `Status` enum of src/templemeads/src/job.rs admits exactly the
three values `Pending`, `Complete` and `Error` — there is no fourth
`Running` state, even though the dispatch path in src/slurm/src/main.rs
calls `job.running(...)` to send an interim `Running` update upstream. -/
theorem status_has_exactly_three_values :
    (∀ s : Status, s = .Pending ∨ s = .Complete ∨ s = .Error) ∧
    Status.Pending ≠ Status.Complete ∧ Status.Pending ≠ Status.Error ∧
    Status.Complete ≠ Status.Error := by
  refine ⟨fun s => ?_, by decide, by decide, by decide⟩
  cases s
  · exact Or.inl rfl
  · exact Or.inr (Or.inl rfl)
  · exact Or.inr (Or.inr rfl)

/-! ### Claim C4 — instruction print/parse round-trip -/

/-- A banned separator of the surrounding context does not occur in the
rendered form of a canonical user identifier. -/
theorem uid_display_sepfree {u : UserIdentifier} {e : List Char}
    (h : u.canonical e) {c : Char} (hc : c ∈ e) (hcd : c ≠ '.') :
    c ∉ u.display := by
  obtain ⟨h1, h2, h3⟩ := h
  intro hmem
  have k1 := h1.2.2 c (List.mem_cons_of_mem _ hc)
  have k2 := h2.2.2 c (List.mem_cons_of_mem _ hc)
  have k3 := h3.2.2 c (List.mem_cons_of_mem _ hc)
  simp only [UserIdentifier.display, List.mem_append, List.mem_cons] at hmem
  tauto

/-- `UserIdentifier::parse` inverts `Display` on canonical identifiers. -/
theorem uid_parse_display {u : UserIdentifier} {e : List Char}
    (h : u.canonical e) : UserIdentifier.parse u.display = .ok u := by
  obtain ⟨h1, h2, h3⟩ := h
  have d1 : '.' ∉ u.username := h1.2.2 '.' (List.mem_cons_self _ _)
  have d2 : '.' ∉ u.project := h2.2.2 '.' (List.mem_cons_self _ _)
  have d3 : '.' ∉ u.portal := h3.2.2 '.' (List.mem_cons_self _ _)
  have hsplit : splitChar '.' u.display =
      [u.username, u.project, u.portal] := by
    unfold UserIdentifier.display
    rw [List.append_assoc, List.cons_append,
        splitChar_append_sep '.' _ _ d1, splitChar_append_sep '.' _ _ d2,
        splitChar_of_not_mem '.' _ d3]
  unfold UserIdentifier.parse
  rw [hsplit]
  simp [h1.2.1, h2.2.1, h3.2.1, h1.1, h2.1, h3.1]

/-- `UserMapping::parse` inverts `Display` on canonical mappings. -/
theorem um_parse_display {m : UserMapping} (h : m.canonical) :
    UserMapping.parse m.display = .ok m := by
  obtain ⟨hu, hl, hp⟩ := h
  have c1 : ':' ∉ m.user.display :=
    uid_display_sepfree hu (List.mem_cons_self _ _) (by decide)
  have c2 : ':' ∉ m.local_user := hl.2.2 ':' (List.mem_cons_self _ _)
  have c3 : ':' ∉ m.local_project := hp.2.2 ':' (List.mem_cons_self _ _)
  have hsplit : splitChar ':' m.display =
      [m.user.display, m.local_user, m.local_project] := by
    unfold UserMapping.display
    rw [List.append_assoc, List.cons_append,
        splitChar_append_sep ':' _ _ c1, splitChar_append_sep ':' _ _ c2,
        splitChar_of_not_mem ':' _ c3]
  unfold UserMapping.parse
  rw [hsplit]
  simp [uid_parse_display hu, hl.2.1, hp.2.1, hl.1, hp.1]

/-- C4 counterexample: the claim as stated is false.  The grammar splits
on single spaces and takes only `parts[2]` as the homedir, so the
non-`Invalid` instruction `update_homedir u.p.portal a b` (homedir
`"a b"`, a value the variant can carry) does not survive the round-trip:
it re-parses with the homedir truncated to `"a"`. -/
theorem instruction_roundtrip_counterexample :
    Instruction.new (Instruction.display
        (.UpdateHomeDir ⟨"u".toList, "p".toList, "portal".toList⟩ "a b".toList)) =
      .UpdateHomeDir ⟨"u".toList, "p".toList, "portal".toList⟩ "a".toList ∧
    Instruction.new (Instruction.display
        (.UpdateHomeDir ⟨"u".toList, "p".toList, "portal".toList⟩ "a b".toList)) ≠
      .UpdateHomeDir ⟨"u".toList, "p".toList, "portal".toList⟩ "a b".toList := by
  constructor
  · decide
  · decide

/-- C4 (amended): rendering a non-`Invalid` instruction and parsing the
text back with `Instruction::new` yields the identical instruction for
every canonical choice of components — components that are non-empty,
trim-stable, and free of the separator characters the grammar splits on
(`'.'` in identifier fields; additionally `':'` inside mappings and
`' '` in the homedir and the identifier of `update_homedir`). -/
theorem instruction_roundtrip (i : Instruction) (h : i.canonical) :
    Instruction.new i.display = i := by
  cases i with
  | AddUser u =>
    unfold Instruction.new Instruction.newP
    rw [show Instruction.display (.AddUser u) =
          "add_user".toList ++ ' ' :: u.display from rfl,
        splitChar_append_sep ' ' _ _ (by decide)]
    simp [List.get?, joinChar_splitChar, uid_parse_display h]
  | RemoveUser u =>
    unfold Instruction.new Instruction.newP
    rw [show Instruction.display (.RemoveUser u) =
          "remove_user".toList ++ ' ' :: u.display from rfl,
        splitChar_append_sep ' ' _ _ (by decide)]
    simp [List.get?, joinChar_splitChar, uid_parse_display h]
  | AddLocalUser m =>
    unfold Instruction.new Instruction.newP
    rw [show Instruction.display (.AddLocalUser m) =
          "add_local_user".toList ++ ' ' :: m.display from rfl,
        splitChar_append_sep ' ' _ _ (by decide)]
    simp [List.get?, joinChar_splitChar, um_parse_display h]
  | RemoveLocalUser m =>
    unfold Instruction.new Instruction.newP
    rw [show Instruction.display (.RemoveLocalUser m) =
          "remove_local_user".toList ++ ' ' :: m.display from rfl,
        splitChar_append_sep ' ' _ _ (by decide)]
    simp [List.get?, joinChar_splitChar, um_parse_display h]
  | UpdateHomeDir u hd =>
    obtain ⟨hu, hh⟩ := h
    have su : ' ' ∉ u.display :=
      uid_display_sepfree hu (List.mem_cons_self _ _) (by decide)
    have sh : ' ' ∉ hd := hh.2.2 ' ' (List.mem_cons_self _ _)
    unfold Instruction.new Instruction.newP
    rw [show Instruction.display (.UpdateHomeDir u hd) =
          "update_homedir".toList ++ ' ' :: (u.display ++ ' ' :: hd) from rfl,
        splitChar_append_sep ' ' _ _ (by decide),
        splitChar_append_sep ' ' _ _ su, splitChar_of_not_mem ' ' _ sh]
    simp [List.get?, uid_parse_display hu, hh.2.1, hh.1]
  | Invalid => exact absurd h (by simp [Instruction.canonical])

theorem instruction_roundtrip_witness :
    Instruction.new (Instruction.display
        (.AddUser ⟨"user".toList, "project".toList, "portal".toList⟩)) =
      .AddUser ⟨"user".toList, "project".toList, "portal".toList⟩ :=
  instruction_roundtrip
    (.AddUser ⟨"user".toList, "project".toList, "portal".toList⟩) (by decide)

/-! ### Claim C5 — encrypt/decrypt round-trip -/

/-- C5: decrypting `Key::encrypt`'s output with the same key returns the
original value (the sealed form carries version byte `1`); decrypting
with a different key fails, decrypting a tampered ciphertext (plaintext
altered under the original tag) fails, and any version byte other than
`1` is refused with the unsupported-version error. -/
theorem encrypt_decrypt_roundtrip {α : Type} (k k' : CryptoKey) (x : α)
    (enc : α → Str) (dec : Str → Option α) (m' : Str) (v : Nat)
    (hdec : dec (enc x) = some x) (hk : k' ≠ k) (hm : m' ≠ enc x) (hv : v ≠ 1) :
    (Key.encrypt k enc x).version = 1 ∧
    Key.decrypt k dec (Key.encrypt k enc x) = .ok x ∧
    Key.decrypt k' dec (Key.encrypt k enc x) =
      .error (.AeadFailure "aead open failed".toList) ∧
    Key.decrypt k dec ⟨⟨k, m', macOf k (enc x)⟩, 1⟩ =
      .error (.AeadFailure "aead open failed".toList) ∧
    Key.decrypt k dec ⟨aeadSeal k (enc x), v⟩ = .error (.UnsupportedVersion v) := by
  refine ⟨rfl, ?_, ?_, ?_, ?_⟩
  · simp [Key.decrypt, Key.encrypt, aeadSeal, aeadOpen, hdec]
  · have : ¬(k = k') := fun h => hk h.symm
    simp [Key.decrypt, Key.encrypt, aeadSeal, aeadOpen, this]
  · have hne : ¬(enc x = m') := fun h => hm h.symm
    simp [Key.decrypt, aeadOpen, macOf, hne]
  · simp [Key.decrypt, hv]

theorem encrypt_decrypt_roundtrip_witness :
    Key.decrypt 0 (fun _ => some 7) (Key.encrypt 0 (fun _ : Nat => "7".toList) 7) =
      .ok 7 ∧
    Key.decrypt 1 (fun _ => some 7) (Key.encrypt 0 (fun _ : Nat => "7".toList) 7) =
      .error (.AeadFailure "aead open failed".toList) :=
  ⟨(encrypt_decrypt_roundtrip 0 1 7 (fun _ : Nat => "7".toList) (fun _ => some 7)
      [] 2 rfl (by decide) (by decide) (by decide)).2.1,
   (encrypt_decrypt_roundtrip 0 1 7 (fun _ : Nat => "7".toList) (fun _ => some 7)
      [] 2 rfl (by decide) (by decide) (by decide)).2.2.1⟩

/-! ### Claim C6 — totality of `Instruction::new` -/

/-- C6: `Instruction::new` is total — every input string (the empty string
included) takes no panicking path (`newP` never hits a `none` index), and
the malformed input `"update_homedir u.p.portal"`, with its missing
homedir argument, parses to `Instruction::Invalid` rather than an error. -/
theorem instruction_new_total :
    (∀ s : Str, (Instruction.newP s).isSome = true) ∧
    Instruction.newP "update_homedir u.p.portal".toList = some .Invalid := by
  constructor
  · intro s
    unfold Instruction.newP
    cases hp : splitChar ' ' s with
    | nil => exact absurd hp (splitChar_ne_nil ' ' s)
    | cons p0 rest =>
      simp only [hp, List.get?]
      repeat' split
      all_goals try rfl
      all_goals
        exfalso
        simp_all only [List.get?_eq_none, List.length_cons, Nat.not_lt]
        omega
  · decide

/-! ### Claim C7 — control-message handling -/

/-- C7: a `Connected{agent, zone}` control message triggers exactly the
three actions `Command::register(agent_type)`, `sync_board` and
`send_queued`, in that order, for that peer (when each effect succeeds),
while `Disconnected` and `Error` messages trigger none of them regardless
of the effect outcomes. -/
theorem process_control_message_actions (agent_type : AgentType)
    (agent zone err : Str) (r1 r2 r3 : EffectResult) :
    process_control_message agent_type (.Connected agent zone)
        (.ok ()) (.ok ()) (.ok ()) =
      ([.registerTo agent_type ⟨agent, zone⟩, .syncBoard ⟨agent, zone⟩,
        .sendQueued ⟨agent, zone⟩], .ok ()) ∧
    process_control_message agent_type (.Disconnected agent zone) r1 r2 r3 =
      ([], .ok ()) ∧
    process_control_message agent_type (.ErrorMsg err) r1 r2 r3 = ([], .ok ()) :=
  ⟨rfl, rfl, rfl⟩

/-! ### Claim C8 — invitation key mirroring -/

/-- `find?` skips a block in which no element satisfies the predicate. -/
theorem find?_append_of_none {α : Type} (p : α → Bool) (l1 l2 : List α)
    (h : ∀ a ∈ l1, p a = false) : (l1 ++ l2).find? p = l2.find? p := by
  induction l1 with
  | nil => rfl
  | cons a l ih =>
    rw [List.cons_append, List.find?_cons,
        h a (List.mem_cons_self _ _)]
    exact ih (fun b hb => h b (List.mem_cons_of_mem _ hb))

/-- C8: when service `A` issues an invitation for client name `B` via
`add_client` (with freshly generated keys `kInner`, `kOuter`) and service
`B` consumes that invitation via `add_server`, the `(inner_key,
outer_key)` pair stored in `A`'s client entry for `B` equals the pair
stored in `B`'s server entry for `A` — both are `(kInner, kOuter)`, and
the server entry is filed under `A`'s name. -/
theorem add_client_add_server_mirror (A B : ServiceConfig) (clientName : Str)
    (ip : IpOrRange) (kInner kOuter : CryptoKey) (wsUrl : Str → Option Str)
    (inv : Invite)
    (h1 : (A.add_client clientName (some ip) kInner kOuter).2 = .ok inv)
    (h2 : (B.add_server inv wsUrl).2 = .ok ()) :
    ((A.add_client clientName (some ip) kInner kOuter).1.clients.find?
        (fun c => decide (c.name = some clientName))).map
        (fun c => (c.inner_key, c.outer_key)) = some (kInner, kOuter) ∧
    ((B.add_server inv wsUrl).1.servers.find?
        (fun s => decide (s.name = inv.name))).map
        (fun s => (s.inner_key, s.outer_key)) = some (kInner, kOuter) ∧
    inv.name = A.name := by
  simp only [ServiceConfig.add_client] at h1 ⊢
  split at h1
  · cases h1
  · split at h1
    · cases h1
    · rename_i hn hdup
      cases h1
      simp only [ServiceConfig.add_server] at h2 ⊢
      split at h2
      · cases h2
      · rename_i hdupS
        split at h2
        · cases h2
        · rename_i server hserver
          split at h2
          · cases h2
          · rename_i hurl
            refine ⟨?_, ?_, trivial⟩
            · rw [if_neg hn, if_neg hdup]
              rw [find?_append_of_none]
              · simp
              · intro c hc
                simp only [decide_eq_false_iff_not]
                intro hcname
                exact hdup (List.any_eq_true.mpr ⟨c, hc, decide_eq_true hcname⟩)
            · rw [if_neg hdupS]
              simp only [ServerConfig.from_invite] at hserver
              split at hserver
              · cases hserver
              · cases hserver
                rw [if_neg hurl]
                rw [find?_append_of_none]
                · simp
                · intro s hs
                  simp only [decide_eq_false_iff_not]
                  intro hsname
                  exact hdupS (List.any_eq_true.mpr ⟨s, hs, decide_eq_true hsname⟩)

theorem add_client_add_server_mirror_witness :
    let A : ServiceConfig :=
      { name := "primary".toList, url := "ws://localhost:8080/".toList,
        ip := "127.0.0.1".toList, port := 5544,
        servers := [], clients := [], encryption := none }
    let B : ServiceConfig :=
      { name := "secondary".toList, url := "ws://localhost:8081/".toList,
        ip := "127.0.0.1".toList, port := 5545,
        servers := [], clients := [], encryption := none }
    let inv : Invite :=
      { name := "primary".toList, url := "ws://localhost:8080/".toList,
        inner_key := 11, outer_key := 22 }
    ((A.add_client "secondary".toList (some (.IP "127.0.0.1".toList)) 11 22).1.clients.find?
        (fun c => decide (c.name = some "secondary".toList))).map
        (fun c => (c.inner_key, c.outer_key)) = some (11, 22) ∧
    ((B.add_server inv (fun u => some u)).1.servers.find?
        (fun s => decide (s.name = inv.name))).map
        (fun s => (s.inner_key, s.outer_key)) = some (11, 22) ∧
    inv.name = "primary".toList := by
  intro A B inv
  have h := add_client_add_server_mirror A B "secondary".toList
    (.IP "127.0.0.1".toList) 11 22 (fun u => some u) inv (by decide) (by decide)
  exact ⟨h.1, h.2.1, h.2.2⟩

/-! ### Claim C9 — the client supervisor loop -/

/-- C9: `client::run` never returns — whatever `run_once` produces at any
iteration, the loop body sleeps exactly 5 seconds and continues to the
next connection attempt. -/
theorem client_run_never_returns (outcomes : Nat → Except Str Unit) (n : Nat) :
    ¬clientRunReturns outcomes ∧
    (clientRun outcomes n).1 = 5 ∧
    (clientRun outcomes n).2 = .continueLoop := by
  refine ⟨?_, ?_, ?_⟩
  · rintro ⟨m, hm⟩
    cases h : outcomes m <;> simp [clientRun, clientLoopBody, h] at hm
  · cases h : outcomes n <;> simp [clientRun, clientLoopBody, h]
  · cases h : outcomes n <;> simp [clientRun, clientLoopBody, h]

end OpenPortal
